import Mathlib

/-!
Verification of the dperf drive-performance engine (minio/dperf).

Shallow embedding of the Go sources under `pkg/dperf/`:

* `perf.go`    — `DrivePerf`, `runTests`, `Run`, `RunAndRender` (coordinator).
* `result.go`  — `DrivePerfResult`, `render` (aggregate totals).
* `run_linux.go` — `copyAligned`, `runWriteTest`, `newEncReader`, `nullReader`
  (aligned direct-I/O copy engine and payload sources).

Modelling conventions:

* Go `error` values become the inductive `GoError`; `nil` is `none`.
* Machine integers (`uint64` throughputs, byte counts) become `Nat`.  No claim
  treated here depends on `uint64` wraparound, so sums are not reduced mod 2^64.
* Byte buffers are represented by their lengths only: every claim treated here
  is about byte counts, errors and control flow, never about buffer contents.
* Concurrency: dperf's goroutine fan-out writes each result into a distinct
  slot of a pre-sized slice and joins with a WaitGroup, so the final data is a
  deterministic function of each slot's outcome.  Slot outcomes
  (`runWriteTestWithIndex` / `runReadTestWithIndex`, whose bodies are not part
  of the sources at hand) are abstracted as function parameters from
  (file path, slot index) to (throughput, error).
* A Go `context.Context` is abstracted by the value of `ctx.Err()` observed at
  the relevant program point (`none` until the cancellation/deadline signal
  fires, `some e` afterwards).
-/

namespace Dperf

/-- Go `error` values that appear in the modelled code.  `other n` stands for
an arbitrary distinct error value (Go errors are compared by identity in the
modelled code paths). -/
inductive GoError where
  | canceled
  | deadlineExceeded
  | ioEOF
  | ioUnexpectedEOF
  | ioShortWrite
  | sizeMismatch (expected got : Nat)
  | other (n : Nat)
deriving DecidableEq, Repr

/-- Structure `DrivePerf` (options), from `perf.go`.  The `ProgressCallback` field is
omitted: it influences no modelled claim (progress events are fire-and-forget). -/
structure DrivePerf where
  Serial : Bool
  Verbose : Bool
  BlockSize : Nat
  FileSize : Nat
  IOPerDrive : Nat
  WriteOnly : Bool
  SyncMode : Bool
deriving DecidableEq, Repr

/-- Structure `DrivePerfResult` from `result.go`. -/
structure DrivePerfResult where
  Path : String
  WriteThroughput : Nat
  ReadThroughput : Nat
  Error : Option GoError
deriving DecidableEq, Repr

/-- Outcome of one per-slot test (`runWriteTestWithIndex` /
`runReadTestWithIndex`): throughput and error, as a function of the slot's
file path and index. -/
def SlotFn : Type := String → Nat → Nat × Option GoError

/-- Go's `filepath.Join` for clean, nonempty path components (the only way dperf
calls it): plain separator concatenation. -/
def fpJoin (a b : String) : String := a ++ "/" ++ b

/-- The per-slot file path built by `runTests`:
`filepath.Join(filepath.Join(path, testUUID), ".writable-check.tmp") + "-" + strconv.Itoa(idx)`. -/
def ioPathOf (path uuid : String) (idx : Nat) : String :=
  fpJoin (fpJoin path uuid) ".writable-check.tmp" ++ "-" ++ toString idx

/-- First non-nil error of the `errs` slice, as scanned by the
`for _, err := range errs` loop at the end of `runTests`. -/
def firstSome : List (Option GoError) → Option GoError
  | [] => none
  | some e :: _ => some e
  | none :: rest => firstSome rest

/-- Write-phase outcomes of `runTests`: slot `i` runs
`runWriteTestWithIndex(ctx, iopath, dataBuffers[i], i)`. -/
def writeOutcomes (d : DrivePerf) (wt : SlotFn) (path uuid : String) :
    List (Nat × Option GoError) :=
  (List.range d.IOPerDrive).map fun i => wt (ioPathOf path uuid i) i

/-- Read-phase outcomes of `runTests` (the read fan-out runs for every slot
index, regardless of whether the slot's write failed). -/
def readOutcomes (d : DrivePerf) (rt : SlotFn) (path uuid : String) :
    List (Nat × Option GoError) :=
  (List.range d.IOPerDrive).map fun i => rt (ioPathOf path uuid i) i

/-- Final contents of the `errs` slice of `runTests` after both fan-outs:
a slot's write error is recorded first; if the read phase runs (not
write-only) and the slot's read errs, the read error overwrites the slot's
entry (`errs[idx] = err` in the read goroutine). -/
def slotErrs (d : DrivePerf) (wt rt : SlotFn) (path uuid : String) :
    List (Option GoError) :=
  let we := (writeOutcomes d wt path uuid).map Prod.snd
  if d.WriteOnly then we
  else (we.zip ((readOutcomes d rt path uuid).map Prod.snd)).map fun p =>
    match p.2 with
    | some e => some e
    | none => p.1

/-- Final contents of the `writeThroughputs` slice: set only on write success. -/
def writeThroughputs (d : DrivePerf) (wt : SlotFn) (path uuid : String) : List Nat :=
  (writeOutcomes d wt path uuid).map fun r =>
    match r.2 with
    | none => r.1
    | some _ => 0

/-- Final contents of the `readThroughputs` slice: set only on read success,
and never touched in write-only mode. -/
def readThroughputs (d : DrivePerf) (rt : SlotFn) (path uuid : String) : List Nat :=
  if d.WriteOnly then (List.range d.IOPerDrive).map fun _ => 0
  else (readOutcomes d rt path uuid).map fun r =>
    match r.2 with
    | none => r.1
    | some _ => 0

/-- Function `(*DrivePerf).runTests` from `perf.go` (current version): write fan-out,
then (unless write-only) read fan-out, then: first non-nil slot error wins and
yields a result with both throughputs at their zero values; otherwise the
result carries the sums of the per-slot throughputs (read sum gated on
`!d.WriteOnly`). -/
def runTests (d : DrivePerf) (wt rt : SlotFn) (path uuid : String) : DrivePerfResult :=
  match firstSome (slotErrs d wt rt path uuid) with
  | some e => ⟨path, 0, 0, some e⟩
  | none =>
    ⟨path, (writeThroughputs d wt path uuid).sum,
      if d.WriteOnly then 0 else (readThroughputs d rt path uuid).sum, none⟩

/-- The `if d.IOPerDrive == 0 { d.IOPerDrive = 4 }` defaulting statement in
`Run` — reached only on the parallel branch, after the serial branch has
already returned. -/
def applyIODefault (d : DrivePerf) : DrivePerf :=
  if d.IOPerDrive = 0 then { d with IOPerDrive := 4 } else d

/-- Function `(*DrivePerf).Run` from `perf.go`.  `ctxErr` is the value of
`childCtx.Err()` observed by the deferred error-override closure (the deferred
`cancel()` is registered first, hence runs after it, so `childCtx.Err()` there
is exactly the parent signal's status).  `uuid` stands for the
`mustGetUUID()` token.  Both branches fill one result per path; the deferred
closure then replaces the returned `nil` error with `childCtx.Err()` whenever
the signal has fired. -/
def Run (d : DrivePerf) (ctxErr : Option GoError) (wt rt : SlotFn)
    (paths : List String) (uuid : String) :
    List DrivePerfResult × Option GoError :=
  if d.Serial then
    (paths.map fun p => runTests d wt rt p uuid, ctxErr)
  else
    let d' := applyIODefault d
    (paths.map fun p => runTests d' wt rt p uuid, ctxErr)

/-- The comparator closure passed to `sort.Slice` in `RunAndRender`:
`results[i].ReadThroughput > results[j].ReadThroughput`. -/
def resLess (a b : DrivePerfResult) : Bool :=
  decide (b.ReadThroughput < a.ReadThroughput)

/-- One step of the insertion sort Go's `sort.Slice` dispatches to for ranges
of length ≤ 12 (`pdqsort`'s `maxInsertion`): the element bubbles left past
every element it compares less-than, i.e. it is inserted into the sorted
prefix before the first element `y` with `less x y`. -/
def insertRes (x : DrivePerfResult) : List DrivePerfResult → List DrivePerfResult
  | [] => [x]
  | y :: ys => if resLess x y then x :: y :: ys else y :: insertRes x ys

/-- The `sort.Slice(results, ...)` call of `RunAndRender`, rendered as the
insertion sort Go actually runs on small inputs (processing elements left to
right, inserting each into the sorted prefix).  `sort.Slice` documents no
stability guarantee; for ranges longer than 12 Go's pdqsort may reorder equal
elements, so only sortedness and permutation are proved of this model. -/
def sortByReadDesc (l : List DrivePerfResult) : List DrivePerfResult :=
  l.foldl (fun acc x => insertRes x acc) []

/-- Function `(*DrivePerf).RunAndRender`: on a non-nil overall error the renderer is
never invoked (`none`); otherwise the renderer is handed the sorted results. -/
def RunAndRender (d : DrivePerf) (ctxErr : Option GoError) (wt rt : SlotFn)
    (paths : List String) (uuid : String) : Option (List DrivePerfResult) :=
  let r := Run d ctxErr wt rt paths uuid
  match r.2 with
  | some _ => none
  | none => some (sortByReadDesc r.1)

/-- The aggregate-total accumulation loop of `render` in `result.go`:
`aggregateWrite += result.WriteThroughput; aggregateRead += result.ReadThroughput`
runs unconditionally for every row (the `result.Error != nil` test only swaps
the displayed cell text for `"-"`). -/
def renderAggregates (results : List DrivePerfResult) : Nat × Nat :=
  results.foldl
    (fun acc r => (acc.1 + r.WriteThroughput, acc.2 + r.ReadThroughput)) (0, 0)

/-- Follows the spec's words (§4.6): total write throughput as a sum over
non-error paths only. -/
def totalWriteNonError (l : List DrivePerfResult) : Nat :=
  ((l.filter fun r => r.Error.isNone).map fun r => r.WriteThroughput).sum

/-- Follows the spec's words (§4.6): total read throughput as a sum over
non-error paths only. -/
def totalReadNonError (l : List DrivePerfResult) : Nat :=
  ((l.filter fun r => r.Error.isNone).map fun r => r.ReadThroughput).sum

/-- Follows the spec's words (§4.5/§7, "first observed error", "slot errors
are first-wins"): with the per-path write/read barrier, every write-phase
error is observed before any read-phase error, so the first observed error is
the first write-phase error in slot order if any exists, and otherwise the
first read-phase error in slot order. -/
def specFirstObservedError (d : DrivePerf) (wt rt : SlotFn) (path uuid : String) :
    Option GoError :=
  match firstSome ((writeOutcomes d wt path uuid).map Prod.snd) with
  | some e => some e
  | none =>
    if d.WriteOnly then none
    else firstSome ((readOutcomes d rt path uuid).map Prod.snd)

/-! ### The aligned copy engine (`run_linux.go`) -/

/-- A reader, reduced to byte counts: from (bytes already delivered, requested
length) to (bytes returned now, error).  Models `io.Reader.Read` for readers
whose behaviour depends only on how much they have already produced. -/
def ReaderFn : Type := Nat → Nat → Nat × Option GoError

/-- A writer, reduced to byte counts: from (bytes already accepted, length
offered) to (bytes accepted now, error). -/
def WriterFn : Type := Nat → Nat → Nat × Option GoError

/-- Result of a `copyAligned` run, instrumented with the `disableDirectIO`
fallback: `disables` counts its invocations and `disabledAt` records the value
of `written` at its first invocation. -/
structure CopyOutcome where
  written : Nat
  err : Option GoError
  disables : Nat
  disabledAt : Option Nat
deriving DecidableEq, Repr

/-- Go's `io.ReadAtLeast(r, buf, min)` with `len(buf) = min` (this is
`io.ReadFull`): keep reading while `n < min` and no error; afterwards, an
error with `n ≥ min` is dropped, and an `io.EOF` with `0 < n < min` becomes
`io.ErrUnexpectedEOF`.  Fuel-indexed (`none` = the Go loop never exits, which
happens only for readers that return `(0, nil)` forever); returns
`(n, err, reader bytes consumed)`. -/
def readAtLeast (rd : ReaderFn) : Nat → Nat → Nat → Nat →
    Option (Nat × Option GoError × Nat)
  | 0, _, _, _ => none
  | fuel + 1, consumed, n, min =>
    if n < min then
      let r := rd consumed (min - n)
      let consumed' := consumed + r.1
      let n' := n + r.1
      match r.2 with
      | none => readAtLeast rd fuel consumed' n' min
      | some e =>
        if min ≤ n' then some (n', none, consumed')
        else if 0 < n' ∧ e = GoError.ioEOF then
          some (n', some GoError.ioUnexpectedEOF, consumed')
        else some (n', some e, consumed')
    else some (n, none, consumed)

/-- The chunk length of one `copyAligned` iteration: `buf := alignedBuf`,
truncated to `remaining := totalSize - written` when a total size is set and
`remaining` is smaller than the buffer. -/
def chunkLen (bufLen : Nat) (totalSize : Option Nat) (written : Nat) : Nat :=
  match totalSize with
  | some ts => if ts - written < bufLen then ts - written else bufLen
  | none => bufLen

/-- The loop of `copyAligned` from `run_linux.go`.  State: fuel, reader bytes
consumed `rs`, writer bytes accepted `ws`, `written`, and the
`disableDirectIO` instrumentation.  Per iteration, mirroring the source:

* `buf := alignedBuf`; when a total size is set (`totalSize != -1`, modelled
  as `some ts` vs `none`) and `remaining := ts - written` is smaller than the
  buffer, the buffer is truncated to `remaining`;
* `nr, err := io.ReadFull(r, buf)`; a non-EOF read error returns immediately;
* `buf = buf[:nr]`; a chunk whose length is a multiple of 4096 goes through
  the aligned `w.Write(buf)`, otherwise through `writeUnaligned`, which first
  calls `disableDirectIO(fd)` (modelled as infallible, counted by the
  instrumentation) and then `io.Copy(w, bytes.NewReader(buf))` — and
  `bytes.Reader.WriteTo` issues one `w.Write` of the whole chunk, turning a
  silent short write into `io.ErrShortWrite` itself;
* `written += nw`; a write error returns; `nw != len(buf)` returns
  `io.ErrShortWrite`; `written == totalSize` returns success; EOF returns
  success; otherwise loop. -/
def copyAlignedLoop (rd : ReaderFn) (wr : WriterFn) (bufLen : Nat)
    (totalSize : Option Nat) :
    Nat → Nat → Nat → Nat → Nat → Option Nat → Option CopyOutcome
  | 0, _, _, _, _, _ => none
  | fuel + 1, rs, ws, written, dis, disAt =>
    let bl := chunkLen bufLen totalSize written
    match readAtLeast rd (bl + 1) rs 0 bl with
    | none => none
    | some (nr, rerr, rs') =>
      let eof := rerr = some GoError.ioEOF ∨ rerr = some GoError.ioUnexpectedEOF
      if rerr ≠ none ∧ ¬ eof then some ⟨written, rerr, dis, disAt⟩
      else
        let chunk := nr
        if chunk % 4096 = 0 then
          let w := wr ws chunk
          let written' := written + w.1
          let ws' := ws + w.1
          if w.2 ≠ none then some ⟨written', w.2, dis, disAt⟩
          else if w.1 ≠ chunk then some ⟨written', some GoError.ioShortWrite, dis, disAt⟩
          else if totalSize = some written' then some ⟨written', none, dis, disAt⟩
          else if eof then some ⟨written', none, dis, disAt⟩
          else copyAlignedLoop rd wr bufLen totalSize fuel rs' ws' written' dis disAt
        else
          let dis' := dis + 1
          let disAt' := match disAt with
            | none => some written
            | some a => some a
          let w := wr ws chunk
          let werr := match w.2 with
            | some e => some e
            | none => if w.1 ≠ chunk then some GoError.ioShortWrite else none
          let written' := written + w.1
          let ws' := ws + w.1
          if werr ≠ none then some ⟨written', werr, dis', disAt'⟩
          else if w.1 ≠ chunk then some ⟨written', some GoError.ioShortWrite, dis', disAt'⟩
          else if totalSize = some written' then some ⟨written', none, dis', disAt'⟩
          else if eof then some ⟨written', none, dis', disAt'⟩
          else copyAlignedLoop rd wr bufLen totalSize fuel rs' ws' written' dis' disAt'

/-- Function `copyAligned(fd, w, r, alignedBuf, totalSize)` started from the empty
state. -/
def copyAligned (rd : ReaderFn) (wr : WriterFn) (bufLen : Nat)
    (totalSize : Option Nat) (fuel : Nat) : Option CopyOutcome :=
  copyAlignedLoop rd wr bufLen totalSize fuel 0 0 0 0 none

/-- Function `(*DrivePerf).runWriteTest` from `run_linux.go`: directory creation and
`directio.OpenFile` are abstracted as succeeding (their failure modes decide
no claim treated here); `n, err := copyAligned(...)`; an error yields
`(0, err)`; `n != int64(d.FileSize)` yields `(0, size-mismatch error)`;
otherwise the measured throughput (wall-clock float arithmetic abstracted as
the parameter `tp`) with no error. -/
def runWriteTest (rd : ReaderFn) (wr : WriterFn) (bufLen fileSize fuel tp : Nat) :
    Option (Nat × Option GoError) :=
  match copyAligned rd wr bufLen (some fileSize) fuel with
  | none => none
  | some o =>
    match o.err with
    | some e => some (0, some e)
    | none =>
      if o.written ≠ fileSize then
        some (0, some (GoError.sizeMismatch fileSize o.written))
      else some (tp, none)

/-- Method `nullReader.Read` from `run_linux.go`: checks `ctx.Err()` before
producing anything; once the signal has fired every read returns
`(0, ctx.Err())`, otherwise the full request. -/
def nullReaderRead (ctxErr : Option GoError) : ReaderFn :=
  fun _ req =>
    match ctxErr with
    | some e => (0, some e)
    | none => (req, none)

/-- Function `newEncReader(ctx)` from `run_linux.go`: the body is
`return rng.NewReader()` — the `ctx` argument is discarded, and the returned
random stream always fills the request with no cancellation check. -/
def newEncReaderRead (ctxErr : Option GoError) : ReaderFn :=
  fun _ req => (req, none)

/-- The payload source as `copyAligned` sees it on the write path
(an infinite stream that always fills the request). -/
def encReaderFn : ReaderFn := fun _ req => (req, none)

/-- Test-harness source: yields exactly `e` bytes and then end-of-input; the
final fragment is delivered together with `io.EOF`, as `io.Reader` permits. -/
def eofReaderFn (e : Nat) : ReaderFn :=
  fun consumed req =>
    if req ≤ e - consumed then (req, none)
    else (e - consumed, some GoError.ioEOF)

/-- Test-harness sink: accepts everything (the behaviour of a healthy
`os.File`-backed `odirectWriter`). -/
def fullWriterFn : WriterFn := fun _ req => (req, none)

/-- Test-harness sink: accepts bytes up to a capacity and then accepts fewer
bytes than offered while returning no error — the "short write without
end-of-input" behaviour named by the claim. -/
def shortWriterFn (cap : Nat) : WriterFn :=
  fun accepted req =>
    if req ≤ cap - accepted then (req, none)
    else (cap - accepted, none)

/-! ### Filesystem footprint of `runTests` (for the cleanup claim)

Paths are modelled as component lists; `os.RemoveAll(dir)` removes every
entry equal to `dir` or beneath it. -/

/-- Relation `isUnder dir p`: `p` is `dir` itself or lies beneath it (componentwise). -/
def isUnder : List String → List String → Bool
  | [], _ => true
  | _ :: _, [] => false
  | a :: as, b :: bs => a = b && isUnder as bs

/-- Go's `os.RemoveAll(dir)` on a directory listing. -/
def removeAll (dir : List String) (fs : List (List String)) : List (List String) :=
  fs.filter fun p => ! isUnder dir p

/-- The run-scoped temporary directory `filepath.Join(path, testUUID)` of one
`runTests` call, as a component list. -/
def testUUIDDir (path : List String) (uuid : String) : List String :=
  path ++ [uuid]

/-- The per-slot file `testPath + "-" + strconv.Itoa(idx)` as a component
list: a single extra component inside the run-scoped directory. -/
def slotFile (path : List String) (uuid : String) (idx : Nat) : List String :=
  path ++ [uuid, ".writable-check.tmp-" ++ toString idx]

/-- Filesystem effect of one `runTests` call on one path: the slot goroutines
create some set of entries (`created` — on success the temp dir and every
slot file; on error or cancellation any subset), and the deferred
`os.RemoveAll(testUUIDPath)` then runs unconditionally, on every exit path. -/
def runTestsFS (fs : List (List String)) (path : List String) (uuid : String)
    (created : List (List String)) : List (List String) :=
  removeAll (testUUIDDir path uuid) (fs ++ created)

/-! ### Concrete fixtures used by counterexamples and witnesses -/

/-- A mount-point name. -/
def pathA : String := "a"

/-- A second mount-point name. -/
def pathB : String := "b"

/-- A run identifier. -/
def uuidC : String := "u"

/-- Write-only parallel configuration with one slot per path. -/
def dWO1 : DrivePerf := ⟨false, false, 4096, 4096, 1, true, false⟩

/-- Parallel configuration, one slot per path, with a read phase. -/
def dRW1 : DrivePerf := ⟨false, false, 4096, 4096, 1, false, false⟩

/-- Serial configuration with `IOPerDrive` left unset (zero). -/
def dSer0 : DrivePerf := ⟨true, false, 4096, 4096, 0, false, false⟩

/-- Slot outcome: every slot succeeds with throughput 5. -/
def slotOK : SlotFn := fun _ _ => (5, none)

/-- Slot outcome: every slot fails with error 1. -/
def slotErr1 : SlotFn := fun _ _ => (0, some (GoError.other 1))

/-- Slot outcome: every slot fails with error 2. -/
def slotErr2 : SlotFn := fun _ _ => (0, some (GoError.other 2))

/-- Slot outcome: the slot of `pathA` fails with error 3, every other slot
succeeds with throughput 7. -/
def slotErrOnA : SlotFn :=
  fun s _ => if s = ioPathOf pathA uuidC 0 then (0, some (GoError.other 3)) else (7, none)

/-! ## Helper lemmas -/

theorem run_snd (d : DrivePerf) (ctxErr : Option GoError) (wt rt : SlotFn)
    (paths : List String) (uuid : String) :
    (Run d ctxErr wt rt paths uuid).2 = ctxErr := by
  by_cases hS : d.Serial <;> simp [Run, hS]

theorem run_fst (d : DrivePerf) (ctxErr : Option GoError) (wt rt : SlotFn)
    (paths : List String) (uuid : String) :
    (Run d ctxErr wt rt paths uuid).1 =
      paths.map fun p =>
        runTests (if d.Serial then d else applyIODefault d) wt rt p uuid := by
  by_cases hS : d.Serial <;> simp [Run, hS]

theorem runTests_error_zero (d : DrivePerf) (wt rt : SlotFn) (path uuid : String)
    (h : (runTests d wt rt path uuid).Error ≠ none) :
    (runTests d wt rt path uuid).WriteThroughput = 0 ∧
      (runTests d wt rt path uuid).ReadThroughput = 0 := by
  cases hf : firstSome (slotErrs d wt rt path uuid) <;>
    simp [runTests, hf] at h ⊢

theorem run_mem_error_zero (d : DrivePerf) (ctxErr : Option GoError)
    (wt rt : SlotFn) (paths : List String) (uuid : String)
    (r : DrivePerfResult) (hr : r ∈ (Run d ctxErr wt rt paths uuid).1)
    (h : r.Error ≠ none) : r.WriteThroughput = 0 ∧ r.ReadThroughput = 0 := by
  rw [run_fst] at hr
  obtain ⟨p, _, rfl⟩ := List.mem_map.mp hr
  exact runTests_error_zero _ _ _ _ _ h

theorem sum_proj_eq_nonError (f : DrivePerfResult → Nat) :
    ∀ l : List DrivePerfResult, (∀ r ∈ l, r.Error ≠ none → f r = 0) →
      (l.map f).sum = ((l.filter fun r => r.Error.isNone).map f).sum := by
  intro l
  induction l with
  | nil => intro _; rfl
  | cons r t ih =>
    intro h
    cases hr : r.Error with
    | none =>
      simp [List.filter_cons, hr, ih fun x hx => h x (List.mem_cons_of_mem _ hx)]
    | some e =>
      have hz : f r = 0 := h r (List.mem_cons_self _ _) (by simp [hr])
      simp [List.filter_cons, hr, hz,
        ih fun x hx => h x (List.mem_cons_of_mem _ hx)]

theorem writeOutcomes_congr (d : DrivePerf) (wt wt' : SlotFn) (path uuid : String)
    (h : ∀ i < d.IOPerDrive, wt (ioPathOf path uuid i) i = wt' (ioPathOf path uuid i) i) :
    writeOutcomes d wt path uuid = writeOutcomes d wt' path uuid :=
  List.map_congr_left fun i hi => h i (List.mem_range.mp hi)

theorem readOutcomes_congr (d : DrivePerf) (rt rt' : SlotFn) (path uuid : String)
    (h : ∀ i < d.IOPerDrive, rt (ioPathOf path uuid i) i = rt' (ioPathOf path uuid i) i) :
    readOutcomes d rt path uuid = readOutcomes d rt' path uuid :=
  List.map_congr_left fun i hi => h i (List.mem_range.mp hi)

theorem runTests_congr (d : DrivePerf) (wt rt wt' rt' : SlotFn) (path uuid : String)
    (hw : ∀ i < d.IOPerDrive, wt (ioPathOf path uuid i) i = wt' (ioPathOf path uuid i) i)
    (hr : ∀ i < d.IOPerDrive, rt (ioPathOf path uuid i) i = rt' (ioPathOf path uuid i) i) :
    runTests d wt rt path uuid = runTests d wt' rt' path uuid := by
  have hwo := writeOutcomes_congr d wt wt' path uuid hw
  have hro := readOutcomes_congr d rt rt' path uuid hr
  unfold runTests slotErrs writeThroughputs readThroughputs
  rw [hwo, hro]

/-! ## Claim C1 — overall error of `Run` is exactly the context's error -/

/-- C1: `Run` returns a non-nil overall error iff the cancellation/deadline
signal has fired, and that error is the context's own error; the overall
error does not depend on any per-path slot outcome (the statement holds for
all `wt`/`rt`); and the per-path results — one per supplied path, the serial
branch with the configuration as given, the parallel branch after the
`IOPerDrive` defaulting — are returned alongside the overall error whether or
not the signal fired. -/
theorem c1_run_overall_error (d : DrivePerf) (ctxErr : Option GoError)
    (wt rt : SlotFn) (paths : List String) (uuid : String) :
    (Run d ctxErr wt rt paths uuid).2 = ctxErr ∧
    ((Run d ctxErr wt rt paths uuid).2 ≠ none ↔ ctxErr ≠ none) ∧
    (Run d ctxErr wt rt paths uuid).1 =
      paths.map fun p =>
        runTests (if d.Serial then d else applyIODefault d) wt rt p uuid := by
  refine ⟨run_snd d ctxErr wt rt paths uuid, ?_, run_fst d ctxErr wt rt paths uuid⟩
  rw [run_snd]

/-! ## Claim C2 — per-path failure handling of `runTests` -/

/-- C2 counterexample: with one slot whose write fails with error 1 and whose
read then fails with error 2, the write/read barrier makes error 1 the first
observed error, yet `runTests` returns error 2: the read goroutine's
`errs[idx] = err` overwrites the slot's write-phase error, so the error
reported is not the first observed one. -/
theorem c2_counterexample :
    runTests dRW1 slotErr1 slotErr2 pathA uuidC = ⟨pathA, 0, 0, some (GoError.other 2)⟩ ∧
    specFirstObservedError dRW1 slotErr1 slotErr2 pathA uuidC = some (GoError.other 1) ∧
    (GoError.other 2 : GoError) ≠ GoError.other 1 := by
  refine ⟨by decide, by decide, by decide⟩

/-- C2 as amended: if any slot of a path ends in error, the path's result
carries the first error in slot-index order of the final per-slot error
array — where a slot's read-phase error overwrites that same slot's
write-phase error — and reports both throughputs as zero, discarding the
remaining slots' partial throughputs; and the result of a path depends only
on the outcomes of that path's own slots, so a failure on one path never
aborts or alters the result of any other path. -/
theorem c2_first_recorded_error_and_isolation (d : DrivePerf)
    (wt rt wt' rt' : SlotFn) (path uuid : String) :
    (∀ e, firstSome (slotErrs d wt rt path uuid) = some e →
      runTests d wt rt path uuid = ⟨path, 0, 0, some e⟩) ∧
    ((∀ i < d.IOPerDrive, wt (ioPathOf path uuid i) i = wt' (ioPathOf path uuid i) i) →
     (∀ i < d.IOPerDrive, rt (ioPathOf path uuid i) i = rt' (ioPathOf path uuid i) i) →
      runTests d wt rt path uuid = runTests d wt' rt' path uuid) := by
  constructor
  · intro e he
    simp [runTests, he]
  · exact runTests_congr d wt rt wt' rt' path uuid

/-- Witness for C2's amended theorem at a concrete input: one slot, write
fails with error 1, read fails with error 2; the first recorded error is
error 2 and the result is the all-zero error result; and the result is
unchanged when the slot outcomes of unrelated paths are replaced. -/
theorem c2_first_recorded_error_and_isolation_witness :
    runTests dRW1 slotErr1 slotErr2 pathA uuidC = ⟨pathA, 0, 0, some (GoError.other 2)⟩ ∧
    runTests dRW1 slotErr1 slotErr2 pathA uuidC =
      runTests dRW1
        (fun s i => if s = ioPathOf pathB uuidC 0 then (9, none) else slotErr1 s i)
        (fun s i => if s = ioPathOf pathB uuidC 0 then (9, none) else slotErr2 s i)
        pathA uuidC := by
  constructor
  · exact (c2_first_recorded_error_and_isolation dRW1 slotErr1 slotErr2 slotErr1
      slotErr2 pathA uuidC).1 (GoError.other 2) (by decide)
  · exact (c2_first_recorded_error_and_isolation dRW1 slotErr1 slotErr2
      (fun s i => if s = ioPathOf pathB uuidC 0 then (9, none) else slotErr1 s i)
      (fun s i => if s = ioPathOf pathB uuidC 0 then (9, none) else slotErr2 s i)
      pathA uuidC).2 (by decide) (by decide)

/-! ## Claim C7 — cancellation check of the write-payload source -/

/-- C7 counterexample: after the cancellation signal has fired, a read from
the write-payload source returned by `newEncReader` still yields a full
4096-byte chunk and no error, and a whole 8192-byte write test still
completes successfully — `newEncReader` discards its context argument and
returns `rng.NewReader()`, which never checks cancellation. -/
theorem c7_counterexample :
    newEncReaderRead (some GoError.canceled) 0 4096 = (4096, none) ∧
    runWriteTest (newEncReaderRead (some GoError.canceled)) fullWriterFn
      4096 8192 8193 7 = some (7, none) := by
  refine ⟨by decide, by decide⟩

/-- C7 as amended: the `nullReader` payload source checks the cancellation
signal before producing each chunk — once the signal has fired, every read
from it returns the cancellation error and zero bytes — but the payload
source the write test actually uses, `newEncReader`, ignores the signal and
keeps returning full chunks with no error (`nullReader` is not referenced by
the write path). -/
theorem c7_nullReader_checks_but_encReader_does_not (e : GoError)
    (consumed req : Nat) :
    nullReaderRead (some e) consumed req = (0, some e) ∧
    newEncReaderRead (some e) consumed req = (req, none) := by
  exact ⟨rfl, rfl⟩

/-! ## Claim C8 — the `IOPerDrive` default of 4 is missed in serial mode -/

/-- C8: the defaulting statement `if d.IOPerDrive == 0 { d.IOPerDrive = 4 }`
sits after the serial branch's `return`, so a serial run with `IOPerDrive`
unset performs zero slots per path and reports zero throughput with no error,
while the identical parallel configuration runs the documented 4 slots and
reports their summed throughput (4 slots × 5 = 20 here). -/
theorem c8_serial_misses_io_default :
    Run dSer0 none slotOK slotOK [pathA] uuidC = ([⟨pathA, 0, 0, none⟩], none) ∧
    Run { dSer0 with Serial := false } none slotOK slotOK [pathA] uuidC =
      ([⟨pathA, 20, 20, none⟩], none) := by
  refine ⟨by decide, by decide⟩

/-! ## Claim C10 — error results carry zero throughputs -/

/-- C10: every `DrivePerfResult` constructed by `runTests` with a non-nil
error has both throughputs equal to zero; consequently, over any result list
produced by `Run`, summing each throughput field over all results equals the
sum over only the non-error results. -/
theorem c10_error_results_zero (d : DrivePerf) (wt rt : SlotFn)
    (path uuid : String) :
    ((runTests d wt rt path uuid).Error ≠ none →
      (runTests d wt rt path uuid).WriteThroughput = 0 ∧
      (runTests d wt rt path uuid).ReadThroughput = 0) ∧
    ∀ (ctxErr : Option GoError) (paths : List String),
      (((Run d ctxErr wt rt paths uuid).1.map fun r => r.WriteThroughput).sum =
        totalWriteNonError (Run d ctxErr wt rt paths uuid).1) ∧
      (((Run d ctxErr wt rt paths uuid).1.map fun r => r.ReadThroughput).sum =
        totalReadNonError (Run d ctxErr wt rt paths uuid).1) := by
  refine ⟨runTests_error_zero d wt rt path uuid, fun ctxErr paths => ⟨?_, ?_⟩⟩
  · exact sum_proj_eq_nonError _ _ fun r hr h =>
      (run_mem_error_zero d ctxErr wt rt paths uuid r hr h).1
  · exact sum_proj_eq_nonError _ _ fun r hr h =>
      (run_mem_error_zero d ctxErr wt rt paths uuid r hr h).2

/-- Witness for C10 at a concrete input: a one-slot path whose write fails
has a non-nil error and zero throughputs. -/
theorem c10_error_results_zero_witness :
    (runTests dRW1 slotErr1 slotErr2 pathA uuidC).Error ≠ none ∧
    (runTests dRW1 slotErr1 slotErr2 pathA uuidC).WriteThroughput = 0 ∧
    (runTests dRW1 slotErr1 slotErr2 pathA uuidC).ReadThroughput = 0 :=
  ⟨by decide,
    (c10_error_results_zero dRW1 slotErr1 slotErr2 pathA uuidC).1 (by decide)⟩

/-! ## Sorting lemmas for `RunAndRender` (claims C3, C4) -/

theorem insertRes_perm (x : DrivePerfResult) :
    ∀ l : List DrivePerfResult, (insertRes x l).Perm (x :: l) := by
  intro l
  induction l with
  | nil => exact List.Perm.refl _
  | cons y ys ih =>
    by_cases h : resLess x y
    · simp [insertRes, h]
    · simp only [insertRes, h, Bool.false_eq_true, if_neg, not_false_iff]
      exact (ih.cons y).trans (List.Perm.swap x y ys)

theorem sortByReadDesc_perm_aux :
    ∀ (l acc : List DrivePerfResult),
      (l.foldl (fun acc x => insertRes x acc) acc).Perm (l ++ acc) := by
  intro l
  induction l with
  | nil => intro acc; exact List.Perm.refl _
  | cons x t ih =>
    intro acc
    have h1 := ih (insertRes x acc)
    have h2 : (t ++ insertRes x acc).Perm (t ++ x :: acc) :=
      (insertRes_perm x acc).append_left t
    have h3 : (t ++ x :: acc).Perm (x :: (t ++ acc)) := List.perm_middle
    exact (h1.trans h2).trans h3

theorem sortByReadDesc_perm (l : List DrivePerfResult) :
    (sortByReadDesc l).Perm l := by
  have := sortByReadDesc_perm_aux l []
  simpa [sortByReadDesc] using this

theorem insertRes_pairwise (x : DrivePerfResult) :
    ∀ l : List DrivePerfResult,
      l.Pairwise (fun a b => b.ReadThroughput ≤ a.ReadThroughput) →
      (insertRes x l).Pairwise (fun a b => b.ReadThroughput ≤ a.ReadThroughput) := by
  intro l
  induction l with
  | nil => intro _; simp [insertRes]
  | cons y ys ih =>
    intro h
    rw [List.pairwise_cons] at h
    by_cases hc : resLess x y
    · have hyx : y.ReadThroughput ≤ x.ReadThroughput :=
        Nat.le_of_lt (by simpa [resLess] using hc)
      simp only [insertRes, hc, if_pos]
      rw [List.pairwise_cons]
      refine ⟨?_, List.pairwise_cons.mpr h⟩
      intro z hz
      rcases List.mem_cons.mp hz with rfl | hz'
      · exact hyx
      · exact le_trans (h.1 z hz') hyx
    · have hxy : x.ReadThroughput ≤ y.ReadThroughput := by
        have := hc
        simp only [resLess, decide_eq_true_eq] at this
        omega
      simp only [insertRes, hc, Bool.false_eq_true, if_neg, not_false_iff]
      rw [List.pairwise_cons]
      refine ⟨?_, ih h.2⟩
      intro z hz
      have : z ∈ x :: ys := (insertRes_perm x ys).mem_iff.mp hz
      rcases List.mem_cons.mp this with rfl | hz'
      · exact hxy
      · exact h.1 z hz'

theorem sortByReadDesc_pairwise_aux :
    ∀ (l acc : List DrivePerfResult),
      acc.Pairwise (fun a b => b.ReadThroughput ≤ a.ReadThroughput) →
      (l.foldl (fun acc x => insertRes x acc) acc).Pairwise
        (fun a b => b.ReadThroughput ≤ a.ReadThroughput) := by
  intro l
  induction l with
  | nil => intro acc h; exact h
  | cons x t ih => intro acc h; exact ih _ (insertRes_pairwise x acc h)

theorem sortByReadDesc_pairwise (l : List DrivePerfResult) :
    (sortByReadDesc l).Pairwise (fun a b => b.ReadThroughput ≤ a.ReadThroughput) :=
  sortByReadDesc_pairwise_aux l [] (List.Pairwise.nil)

theorem renderAggregates_eq_sums_aux :
    ∀ (l : List DrivePerfResult) (a b : Nat),
      l.foldl (fun acc r => (acc.1 + r.WriteThroughput, acc.2 + r.ReadThroughput)) (a, b) =
        (a + (l.map fun r => r.WriteThroughput).sum,
         b + (l.map fun r => r.ReadThroughput).sum) := by
  intro l
  induction l with
  | nil => intro a b; simp
  | cons r t ih =>
    intro a b
    simp [ih, Nat.add_assoc]

theorem renderAggregates_eq_sums (l : List DrivePerfResult) :
    renderAggregates l =
      ((l.map fun r => r.WriteThroughput).sum, (l.map fun r => r.ReadThroughput).sum) := by
  have := renderAggregates_eq_sums_aux l 0 0
  simpa [renderAggregates] using this

theorem runAndRender_some (d : DrivePerf) (ctxErr : Option GoError)
    (wt rt : SlotFn) (paths : List String) (uuid : String)
    (l : List DrivePerfResult)
    (h : RunAndRender d ctxErr wt rt paths uuid = some l) :
    l = sortByReadDesc (Run d ctxErr wt rt paths uuid).1 := by
  simp only [RunAndRender] at h
  rw [run_snd] at h
  cases ctxErr with
  | none => simpa using h.symm
  | some e => simp at h

/-! ## Claim C3 — ordering of the results handed to the renderer -/

/-- C3 counterexample: a write-only run over two paths, where the single slot
of `pathA` fails and the single slot of `pathB` succeeds, hands the renderer
the error-bearing result of `pathA` *first*, ahead of the non-error result of
`pathB`: both have read throughput 0 (write-only), the comparator
`results[i].ReadThroughput > results[j].ReadThroughput` holds for neither
pair, and Go's insertion sort (which `sort.Slice` runs on a 2-element range)
keeps the input order.  This refutes "every error-carrying result … appears
after all non-error results". -/
theorem c3_counterexample :
    RunAndRender dWO1 none slotErrOnA slotOK [pathA, pathB] uuidC =
      some [⟨pathA, 0, 0, some (GoError.other 3)⟩, ⟨pathB, 7, 0, none⟩] ∧
    (⟨pathA, 0, 0, some (GoError.other 3)⟩ : DrivePerfResult).Error ≠ none ∧
    (⟨pathB, 7, 0, none⟩ : DrivePerfResult).Error = none := by
  refine ⟨by decide, by decide, by decide⟩

/-- C3 as amended: `RunAndRender` hands the renderer a permutation of `Run`'s
results ordered by non-increasing `ReadThroughput`; since every error-carrying
result has zero read throughput, an error-carrying result never precedes a
result with positive read throughput — but it may precede a non-error result
whose read throughput is also zero, and `sort.Slice` guarantees no stable tie
order. -/
theorem c3_sorted_handed (d : DrivePerf) (ctxErr : Option GoError)
    (wt rt : SlotFn) (paths : List String) (uuid : String)
    (l : List DrivePerfResult)
    (h : RunAndRender d ctxErr wt rt paths uuid = some l) :
    l.Pairwise (fun a b => b.ReadThroughput ≤ a.ReadThroughput) ∧
    l.Perm (Run d ctxErr wt rt paths uuid).1 ∧
    l.Pairwise (fun a b => a.Error ≠ none → b.ReadThroughput = 0) := by
  have hl := runAndRender_some d ctxErr wt rt paths uuid l h
  subst hl
  refine ⟨sortByReadDesc_pairwise _, sortByReadDesc_perm _, ?_⟩
  refine List.Pairwise.imp_of_mem ?_ (sortByReadDesc_pairwise _)
  intro a b ha _ hle hae
  have ha' : a ∈ (Run d ctxErr wt rt paths uuid).1 :=
    (sortByReadDesc_perm _).mem_iff.mp ha
  have hz := (run_mem_error_zero d ctxErr wt rt paths uuid a ha' hae).2
  omega

/-- Witness for C3's amended theorem at a concrete input (the same scenario
as the counterexample): the handed list is a sorted permutation of `Run`'s
results. -/
theorem c3_sorted_handed_witness :
    RunAndRender dWO1 none slotErrOnA slotOK [pathA, pathB] uuidC =
      some [⟨pathA, 0, 0, some (GoError.other 3)⟩, ⟨pathB, 7, 0, none⟩] ∧
    ([⟨pathA, 0, 0, some (GoError.other 3)⟩, ⟨pathB, 7, 0, none⟩] :
        List DrivePerfResult).Perm
      (Run dWO1 none slotErrOnA slotOK [pathA, pathB] uuidC).1 :=
  ⟨by decide,
    (c3_sorted_handed dWO1 none slotErrOnA slotOK [pathA, pathB] uuidC
      [⟨pathA, 0, 0, some (GoError.other 3)⟩, ⟨pathB, 7, 0, none⟩]
      (by decide)).2.1⟩

/-! ## Claim C4 — aggregate totals equal the sums over non-error results -/

/-- C4: the aggregate totals computed by `render`'s accumulation loop over
the handed results equal the sums of `WriteThroughput` (resp.
`ReadThroughput`) over exactly the results whose error is nil: although the
loop adds every row's fields unconditionally, every error-carrying result
produced by `Run` has both throughputs equal to zero, so it contributes
nothing to either total. -/
theorem c4_render_totals (d : DrivePerf) (ctxErr : Option GoError)
    (wt rt : SlotFn) (paths : List String) (uuid : String)
    (l : List DrivePerfResult)
    (h : RunAndRender d ctxErr wt rt paths uuid = some l) :
    renderAggregates l = (totalWriteNonError l, totalReadNonError l) := by
  have hl := runAndRender_some d ctxErr wt rt paths uuid l h
  have hmem : ∀ r ∈ l, r ∈ (Run d ctxErr wt rt paths uuid).1 := by
    intro r hr
    rw [hl] at hr
    exact (sortByReadDesc_perm _).mem_iff.mp hr
  rw [renderAggregates_eq_sums]
  have hW := sum_proj_eq_nonError (fun r => r.WriteThroughput) l
    (fun r hr he => (run_mem_error_zero d ctxErr wt rt paths uuid r (hmem r hr) he).1)
  have hR := sum_proj_eq_nonError (fun r => r.ReadThroughput) l
    (fun r hr he => (run_mem_error_zero d ctxErr wt rt paths uuid r (hmem r hr) he).2)
  simp only [Prod.mk.injEq, totalWriteNonError, totalReadNonError]
  exact ⟨hW, hR⟩

/-- Witness for C4 at a concrete input containing an error-carrying result:
the totals over all rows coincide with the totals over the non-error rows. -/
theorem c4_render_totals_witness :
    renderAggregates
        [⟨pathA, 0, 0, some (GoError.other 3)⟩, ⟨pathB, 7, 0, none⟩] =
      (totalWriteNonError
          [⟨pathA, 0, 0, some (GoError.other 3)⟩, ⟨pathB, 7, 0, none⟩],
       totalReadNonError
          [⟨pathA, 0, 0, some (GoError.other 3)⟩, ⟨pathB, 7, 0, none⟩]) :=
  c4_render_totals dWO1 none slotErrOnA slotOK [pathA, pathB] uuidC
    [⟨pathA, 0, 0, some (GoError.other 3)⟩, ⟨pathB, 7, 0, none⟩] (by decide)

/-! ## Claim C9 — the run-scoped temporary directory is always removed -/

theorem isUnder_append : ∀ l m : List String, isUnder l (l ++ m) = true := by
  intro l
  induction l with
  | nil => intro m; rfl
  | cons a as ih => intro m; simp [isUnder, ih]

theorem isUnder_self (l : List String) : isUnder l l = true := by
  have := isUnder_append l []
  simpa using this

/-- C9: `runTests` defers `os.RemoveAll(testUUIDPath)` before starting any
slot, so the removal runs on every exit path — success, per-slot error and
cancellation alike (hence the quantification over an arbitrary set of created
entries).  Every entry the slots create (the temporary directory itself,
created by `MkdirAll(filepath.Dir(iopath))`, and each per-slot file) lies
under the run-scoped directory `{path}/{run-uuid}`, so if the prior listing
contains nothing under that directory (the run identifier is fresh), the
listing after the call equals the listing before the call. -/
theorem c9_temp_dir_removed (fs : List (List String)) (path : List String)
    (uuid : String) (created : List (List String))
    (hc : ∀ c ∈ created, isUnder (testUUIDDir path uuid) c = true)
    (hf : ∀ p ∈ fs, isUnder (testUUIDDir path uuid) p = false) :
    runTestsFS fs path uuid created = fs ∧
    isUnder (testUUIDDir path uuid) (testUUIDDir path uuid) = true ∧
    ∀ idx, isUnder (testUUIDDir path uuid) (slotFile path uuid idx) = true := by
  refine ⟨?_, isUnder_self _, ?_⟩
  · unfold runTestsFS removeAll
    rw [List.filter_append]
    have h1 : created.filter (fun p => ! isUnder (testUUIDDir path uuid) p) = [] := by
      apply List.filter_eq_nil_iff.mpr
      intro c hcmem
      simp [hc c hcmem]
    have h2 : fs.filter (fun p => ! isUnder (testUUIDDir path uuid) p) = fs := by
      apply List.filter_eq_self.mpr
      intro p hp
      simp [hf p hp]
    rw [h1, h2, List.append_nil]
  · intro idx
    have : slotFile path uuid idx =
        testUUIDDir path uuid ++ [".writable-check.tmp-" ++ toString idx] := by
      simp [slotFile, testUUIDDir]
    rw [this]
    exact isUnder_append _ _

/-- Witness for C9 at a concrete input: a successful one-slot run creates the
temporary directory and one slot file under it; after removal the listing is
restored. -/
theorem c9_temp_dir_removed_witness :
    runTestsFS [[pathA], [pathA, pathB]] [pathA] uuidC
        [testUUIDDir [pathA] uuidC, slotFile [pathA] uuidC 0] =
      [[pathA], [pathA, pathB]] :=
  (c9_temp_dir_removed [[pathA], [pathA, pathB]] [pathA] uuidC
    [testUUIDDir [pathA] uuidC, slotFile [pathA] uuidC 0]
    (by decide) (by decide)).1

/-! ## Reader lemmas for the copy engine (claims C5, C6) -/

theorem readAtLeast_enc (rs bl : Nat) :
    readAtLeast encReaderFn (bl + 1) rs 0 bl = some (bl, none, rs + bl) := by
  cases bl with
  | zero => simp [readAtLeast]
  | succ b => simp [readAtLeast, encReaderFn]

theorem readAtLeast_eof_full (e rs bl : Nat) (h : bl ≤ e - rs) :
    readAtLeast (eofReaderFn e) (bl + 1) rs 0 bl = some (bl, none, rs + bl) := by
  cases bl with
  | zero => simp [readAtLeast]
  | succ b => simp [readAtLeast, eofReaderFn, h]

theorem readAtLeast_eof_tail (e rs bl : Nat) (hb : 0 < bl) (h : e - rs < bl) :
    readAtLeast (eofReaderFn e) (bl + 1) rs 0 bl =
      some (e - rs,
        some (if e - rs = 0 then GoError.ioEOF else GoError.ioUnexpectedEOF),
        rs + (e - rs)) := by
  cases bl with
  | zero => omega
  | succ b =>
    have hreq : ¬ (b + 1 ≤ e - rs) := by omega
    by_cases hz : e - rs = 0 <;>
      simp [readAtLeast, eofReaderFn, hreq, hz] <;> omega

/-! ## Claims C5, C6 - the aligned copy engine -/

theorem copyAligned_enc_full_loop (bufLen N : Nat) (hb : 0 < bufLen)
    (hd : 4096 ∣ bufLen) :
    ∀ fuel w rs ws, bufLen ∣ w → w ≤ N → N - w < fuel →
      copyAlignedLoop encReaderFn fullWriterFn bufLen (some N) fuel rs ws w 0 none =
        some ⟨N, none, if N % 4096 = 0 then 0 else 1,
              if N % 4096 = 0 then none else some (N - N % bufLen)⟩ := by
  intro fuel
  induction fuel with
  | zero => intro w rs ws _ _ h; omega
  | succ fuel ih =>
    intro w rs ws hdvd hwN hfuel
    have h4w : 4096 ∣ w := hd.trans hdvd
    by_cases hlast : N - w < bufLen
    · -- final (possibly empty) chunk of length N - w
      have hbl : chunkLen bufLen (some N) w = N - w := by
        simp [chunkLen, hlast]
      have hwsum : w + (N - w) = N := by omega
      by_cases h4N : N % 4096 = 0
      · -- tail aligned: no fallback, success
        have hch4 : (N - w) % 4096 = 0 := by
          have h1 : (4096 : Nat) ∣ N := Nat.dvd_of_mod_eq_zero h4N
          exact Nat.mod_eq_zero_of_dvd (Nat.dvd_sub' h1 h4w)
        simp [copyAlignedLoop, hbl, readAtLeast_enc, fullWriterFn, hch4, hwsum, h4N]
      · -- tail unaligned: exactly one disable, recorded at the final chunk
        have hwlt : w < N := by
          rcases Nat.lt_or_ge w N with h | h
          · exact h
          · exfalso
            have : w = N := by omega
            subst this
            exact h4N (Nat.mod_eq_zero_of_dvd h4w)
        have hch4 : (N - w) % 4096 = N % 4096 := by
          obtain ⟨k, hk⟩ := h4w
          have h1 : N = 4096 * k + (N - w) := by omega
          conv_rhs => rw [h1]
          rw [Nat.mul_add_mod]
        have hmodN : N % bufLen = N - w := by
          obtain ⟨k, hk⟩ := hdvd
          have h1 : N = bufLen * k + (N - w) := by omega
          conv_lhs => rw [h1]
          rw [Nat.mul_add_mod, Nat.mod_eq_of_lt hlast]
        have hweq : N - N % bufLen = w := by omega
        simp [copyAlignedLoop, hbl, readAtLeast_enc, fullWriterFn, hch4, hwsum,
          h4N, hweq]
    · -- full aligned chunk of length bufLen
      have hbl : chunkLen bufLen (some N) w = bufLen := by
        simp [chunkLen, hlast]
      have hbl4 : bufLen % 4096 = 0 := Nat.mod_eq_zero_of_dvd hd
      by_cases heq : w + bufLen = N
      · have h4N : N % 4096 = 0 := by
          apply Nat.mod_eq_zero_of_dvd
          rw [← heq]
          exact Nat.dvd_add h4w hd
        simp [copyAlignedLoop, hbl, readAtLeast_enc, fullWriterFn, hbl4, heq, h4N]
      · have hstep := ih (w + bufLen) (rs + bufLen) (ws + bufLen)
          (Nat.dvd_add hdvd (dvd_refl bufLen)) (by omega) (by omega)
        simp [copyAlignedLoop, hbl, readAtLeast_enc, fullWriterFn, hbl4, heq,
          hstep]
        omega

theorem copyAligned_short_writer_loop (bufLen N cap : Nat) (hb : 0 < bufLen)
    (hcap : cap < N) :
    ∀ fuel w rs dis disAt, w ≤ cap → cap - w < fuel →
      ∃ d a, copyAlignedLoop encReaderFn (shortWriterFn cap) bufLen (some N)
          fuel rs w w dis disAt =
        some ⟨cap, some GoError.ioShortWrite, d, a⟩ := by
  intro fuel
  induction fuel with
  | zero => intro w rs dis disAt _ h; omega
  | succ fuel ih =>
    intro w rs dis disAt hwcap hfuel
    have hblpos : 0 < chunkLen bufLen (some N) w := by
      simp only [chunkLen]
      by_cases h : N - w < bufLen <;> simp [h] <;> omega
    set bl := chunkLen bufLen (some N) w with hbl
    by_cases hfull : bl ≤ cap - w
    · -- chunk fully accepted: continue
      have hno : ¬ (N = w + bl) := by
        simp only [chunkLen, hbl] at hfull ⊢
        by_cases h : N - w < bufLen <;> simp [h] at hfull ⊢ <;> omega
      have hwr : shortWriterFn cap w bl = (bl, none) := by
        simp [shortWriterFn, hfull]
      obtain ⟨d, a, hrec⟩ := ih (w + bl) (rs + bl)
        (if bl % 4096 = 0 then dis else dis + 1)
        (if bl % 4096 = 0 then disAt else match disAt with | none => some w | some x => some x)
        (by omega) (by omega)
      by_cases hal : bl % 4096 = 0
      · refine ⟨d, a, ?_⟩
        simp only [hal, if_pos] at hrec
        simp [copyAlignedLoop, ← hbl, readAtLeast_enc, hwr, hal, hno, hrec]
      · refine ⟨d, a, ?_⟩
        simp only [if_neg hal] at hrec
        simp [copyAlignedLoop, ← hbl, readAtLeast_enc, hwr, hal, hno, hrec]
    · -- chunk short-accepted with no error: ErrShortWrite
      have hwr : shortWriterFn cap w bl = (cap - w, none) := by
        simp [shortWriterFn, hfull]
      have hne : ¬ (cap - w = bl) := by omega
      have hsum : w + (cap - w) = cap := by omega
      by_cases hal : bl % 4096 = 0
      · exact ⟨dis, disAt, by
          simp [copyAlignedLoop, ← hbl, readAtLeast_enc, hwr, hal, hne, hsum]⟩
      · exact ⟨dis + 1, (match disAt with | none => some w | some x => some x), by
          simp [copyAlignedLoop, ← hbl, readAtLeast_enc, hwr, hal, hne, hsum]⟩

theorem copyAligned_eof_loop (bufLen N E : Nat) (hb : 0 < bufLen) (hE : E < N) :
    ∀ fuel w dis disAt, w ≤ E → E - w < fuel →
      ∃ d a, copyAlignedLoop (eofReaderFn E) fullWriterFn bufLen (some N)
          fuel w w w dis disAt = some ⟨E, none, d, a⟩ := by
  intro fuel
  induction fuel with
  | zero => intro w dis disAt _ h; omega
  | succ fuel ih =>
    intro w dis disAt hwE hfuel
    have hblpos : 0 < chunkLen bufLen (some N) w := by
      simp only [chunkLen]
      by_cases h : N - w < bufLen <;> simp [h] <;> omega
    set bl := chunkLen bufLen (some N) w with hbl
    by_cases hfull : bl ≤ E - w
    · -- source still has at least a full chunk
      have hno : ¬ (N = w + bl) := by
        simp only [chunkLen, hbl] at hfull ⊢
        by_cases h : N - w < bufLen <;> simp [h] at hfull ⊢ <;> omega
      have hrd := readAtLeast_eof_full E w bl hfull
      obtain ⟨d, a, hrec⟩ := ih (w + bl)
        (if bl % 4096 = 0 then dis else dis + 1)
        (if bl % 4096 = 0 then disAt else match disAt with | none => some w | some x => some x)
        (by omega) (by omega)
      by_cases hal : bl % 4096 = 0
      · refine ⟨d, a, ?_⟩
        simp only [if_pos hal] at hrec
        simp [copyAlignedLoop, ← hbl, hrd, fullWriterFn, hal, hno, hrec]
      · refine ⟨d, a, ?_⟩
        simp only [if_neg hal] at hrec
        simp [copyAlignedLoop, ← hbl, hrd, fullWriterFn, hal, hno, hrec]
    · -- final fragment plus end-of-input: return success with written = E
      have htail : E - w < bl := by omega
      have hrd := readAtLeast_eof_tail E w bl hblpos htail
      have hsum : w + (E - w) = E := by omega
      have hno : ¬ (N = E) := by omega
      by_cases hz : E - w = 0
      · exact ⟨dis, disAt, by
          simp [copyAlignedLoop, ← hbl, hrd, fullWriterFn, hz, hsum, hno]
          omega⟩
      · by_cases hal : (E - w) % 4096 = 0
        · exact ⟨dis, disAt, by
            simp [copyAlignedLoop, ← hbl, hrd, fullWriterFn, hz, hal, hsum, hno]⟩
        · exact ⟨dis + 1, (match disAt with | none => some w | some x => some x), by
            simp [copyAlignedLoop, ← hbl, hrd, fullWriterFn, hz, hal, hsum, hno]⟩

/-- C6: with an aligned buffer whose length is a positive multiple of 4096,
a `copyAligned` transfer of the write test's payload stream into a
fully-accepting sink never invokes the `disableDirectIO` fallback when the
total size is an exact multiple of 4096, and invokes it exactly once — on the
final partial chunk, which starts at offset `N - N % bufLen` — when the total
size has a nonzero remainder modulo 4096. -/
theorem c6_alignment_fallback (bufLen N : Nat) (hb : 0 < bufLen)
    (hd : 4096 ∣ bufLen) :
    (N % 4096 = 0 →
      copyAligned encReaderFn fullWriterFn bufLen (some N) (N + 1) =
        some ⟨N, none, 0, none⟩) ∧
    (N % 4096 ≠ 0 →
      copyAligned encReaderFn fullWriterFn bufLen (some N) (N + 1) =
        some ⟨N, none, 1, some (N - N % bufLen)⟩) := by
  have h := copyAligned_enc_full_loop bufLen N hb hd (N + 1) 0 0 0
    (dvd_zero _) (Nat.zero_le _) (by omega)
  constructor <;> intro h4 <;> simp [copyAligned, h, h4]

/-- Witness for C6 at a concrete input: an 8200-byte transfer with a
4096-byte buffer disables direct I/O exactly once, at the final 8-byte
chunk starting at offset 8192. -/
theorem c6_alignment_fallback_witness :
    copyAligned encReaderFn fullWriterFn 4096 (some 8200) 8201 =
      some ⟨8200, none, 1, some (8200 - 8200 % 4096)⟩ :=
  (c6_alignment_fallback 4096 8200 (by decide) (by decide)).2 (by decide)

/-- C5: the write test succeeds only when exactly `N = FileSize` bytes are
transferred.  A sink that accepts fewer bytes than requested without
signaling end-of-input makes `copyAligned` fail with `io.ErrShortWrite`, so
the write test reports zero throughput and that error; a payload source that
hits end-of-input after `E < N` bytes completes `copyAligned` with `E` bytes
written, and the write test then fails with the size-mismatch error and zero
throughput; and whenever the write test returns no error, `copyAligned`
transferred exactly `N` bytes. -/
theorem c5_exact_transfer (bufLen N cap E tp : Nat) (hb : 0 < bufLen)
    (hcap : cap < N) (hE : E < N) :
    runWriteTest encReaderFn (shortWriterFn cap) bufLen N (N + 1) tp =
      some (0, some GoError.ioShortWrite) ∧
    runWriteTest (eofReaderFn E) fullWriterFn bufLen N (N + 1) tp =
      some (0, some (GoError.sizeMismatch N E)) ∧
    ∀ (rd : ReaderFn) (wr : WriterFn) (fuel t : Nat),
      runWriteTest rd wr bufLen N fuel tp = some (t, none) →
      ∃ o, copyAligned rd wr bufLen (some N) fuel = some o ∧
        o.err = none ∧ o.written = N ∧ t = tp := by
  refine ⟨?_, ?_, ?_⟩
  · obtain ⟨d, a, hloop⟩ := copyAligned_short_writer_loop bufLen N cap hb hcap
      (N + 1) 0 0 0 none (Nat.zero_le _) (by omega)
    simp [runWriteTest, copyAligned, hloop]
  · obtain ⟨d, a, hloop⟩ := copyAligned_eof_loop bufLen N E hb hE
      (N + 1) 0 0 none (Nat.zero_le _) (by omega)
    have hne : E ≠ N := by omega
    simp [runWriteTest, copyAligned, hloop, hne]
  · intro rd wr fuel t h
    unfold runWriteTest at h
    cases hco : copyAligned rd wr bufLen (some N) fuel with
    | none => rw [hco] at h; simp at h
    | some o =>
      rw [hco] at h
      cases he : o.err with
      | some e => simp [he] at h
      | none =>
        by_cases hw : o.written = N
        · simp [he, hw] at h
          exact ⟨o, rfl, he, hw, h.symm⟩
        · simp [he, hw] at h

/-- Witness for C5 at concrete inputs: a 12288-byte write test against a
sink that accepts only 5000 bytes fails with the short-write error; against a
source that ends after 6000 bytes it fails with the size-mismatch error; both
report zero throughput. -/
theorem c5_exact_transfer_witness :
    runWriteTest encReaderFn (shortWriterFn 5000) 4096 12288 12289 77 =
      some (0, some GoError.ioShortWrite) ∧
    runWriteTest (eofReaderFn 6000) fullWriterFn 4096 12288 12289 77 =
      some (0, some (GoError.sizeMismatch 12288 6000)) :=
  ⟨(c5_exact_transfer 4096 12288 5000 6000 77 (by decide) (by decide) (by decide)).1,
   (c5_exact_transfer 4096 12288 5000 6000 77 (by decide) (by decide) (by decide)).2.1⟩

end Dperf
